import Mathlib

set_option maxRecDepth 8000

/-!
Verification development for the chain-head synchronization and burn-sum
aggregation core of the eth-analysis service.

The data model and operations below are shallow embeddings of the Rust
source. Pure match-based functions are translated directly; SQL-backed
store primitives whose implementation file is absent from the sources
(the block store and burn-sum store) are modelled from the specification,
each such definition is marked in its doc comment.

Machine integers: Rust `u64`/`u32` values are modelled as `Nat`, `i128`
as `Int`; where overflow matters the checked-arithmetic operations carry
explicit range conditions. Fallible operations (Rust panics / `expect`)
return `Option` (`none` = panic) or `Except String` when the panic
message matters.
-/

/-! ## Units (`eth_units.rs`)

`GweiNewtype` wraps a `u64`; `WeiNewtype` wraps an `i128`. Their `Add`
and `Sub` impls use `checked_add`/`checked_sub` and `expect` with a
distinct message per operation. We model the values as `Nat` (in
`[0, 2^64)`) and `Int` (in `[-2^127, 2^127)`), and the panics as
`Except.error` carrying the panic message of the source.
-/

def U64_MAX : Nat := 2 ^ 64 - 1

def I128_MIN : Int := -(2 ^ 127)

def I128_MAX : Int := 2 ^ 127 - 1

/-- A `Nat` is representable as a `u64`. -/
def isU64 (n : Nat) : Prop := n ≤ U64_MAX

instance (n : Nat) : Decidable (isU64 n) := by unfold isU64; infer_instance

/-- An `Int` is representable as an `i128`. -/
def isI128 (z : Int) : Prop := I128_MIN ≤ z ∧ z ≤ I128_MAX

instance (z : Int) : Decidable (isI128 z) := by unfold isI128; infer_instance

/-- `impl Add for GweiNewtype`: `checked_add` followed by
`expect("caused overflow in gwei addition")`. -/
def gweiAdd (a b : Nat) : Except String Nat :=
  if isU64 (a + b) then .ok (a + b) else .error "caused overflow in gwei addition"

/-- `impl Sub for GweiNewtype`: `checked_sub` followed by
`expect("caused underflow in gwei subtraction")`. `u64::checked_sub`
returns `None` exactly when the subtrahend exceeds the minuend. -/
def gweiSub (a b : Nat) : Except String Nat :=
  if b ≤ a then .ok (a - b) else .error "caused underflow in gwei subtraction"

/-- `impl Add for WeiNewtype`: `checked_add` followed by
`expect("caused overflow in wei addition")`. -/
def weiAdd (a b : Int) : Except String Int :=
  if isI128 (a + b) then .ok (a + b) else .error "caused overflow in wei addition"

/-- `impl Sub for WeiNewtype`: `checked_sub` followed by
`expect("caused underflow in wei subtraction")`. -/
def weiSub (a b : Int) : Except String Int :=
  if isI128 (a - b) then .ok (a - b) else .error "caused underflow in wei subtraction"

/-! ## Time frames (`time_frames.rs`) -/

/-- `enum LimitedTimeFrame` from `time_frames.rs`. -/
inductive LimitedTimeFrame where
  | Day1
  | Day30
  | Day7
  | Hour1
  | Minute5
  deriving DecidableEq, Repr

/-- `LimitedTimeFrame::to_db_key` from `time_frames.rs` lines 107-115,
translated branch by branch (note: the source maps `Day30` to `"d1"`). -/
def LimitedTimeFrame.toDbKey : LimitedTimeFrame → String
  | .Day1 => "d1"
  | .Day30 => "d1"
  | .Day7 => "d7"
  | .Hour1 => "h1"
  | .Minute5 => "m5"

/-- `impl FromStr for LimitedTimeFrame`; the error carries the thiserror
formatted message `failed to parse time frame {0}`. -/
def LimitedTimeFrame.fromStr (s : String) : Except String LimitedTimeFrame :=
  match s with
  | "m5" => .ok .Minute5
  | "h1" => .ok .Hour1
  | "d1" => .ok .Day1
  | "d7" => .ok .Day7
  | "d30" => .ok .Day30
  | unknownTimeFrame => .error ("failed to parse time frame " ++ unknownTimeFrame)

/-- `impl Display for LimitedTimeFrame`. -/
def LimitedTimeFrame.display : LimitedTimeFrame → String
  | .Day1 => "d1"
  | .Day30 => "d30"
  | .Day7 => "d7"
  | .Hour1 => "h1"
  | .Minute5 => "m5"

/-- `impl From<LimitedTimeFrame> for Duration` (chrono durations,
modelled in whole seconds). -/
def LimitedTimeFrame.duration : LimitedTimeFrame → Int
  | .Day1 => 86400
  | .Day30 => 30 * 86400
  | .Day7 => 7 * 86400
  | .Hour1 => 3600
  | .Minute5 => 300

/-- Modelled from the spec: the growing time-frame variants
(`SinceMerge`, `SinceBurn`) used by the burn-sums module. The
`time_frames.rs` present in the sources is an older generation whose
`TimeFrame` has `All` instead; `burn_sums/mod.rs` imports
`GrowingTimeFrame`, whose defining file is absent. -/
inductive GrowingTimeFrame where
  | SinceMerge
  | SinceBurn
  deriving DecidableEq, Repr

/-- Modelled from the spec: the `TimeFrame` tagged union used by the
burn-sums module: `Growing{SinceMerge, SinceBurn}` or
`Limited{Minute5, Hour1, Day1, Day7, Day30}`. -/
inductive TimeFrame where
  | Growing (g : GrowingTimeFrame)
  | Limited (l : LimitedTimeFrame)
  deriving DecidableEq, Repr

/-! ## Block store model

The block store implementation (`execution_chain/block_store.rs`, SQL)
is absent from the sources; only its call sites are present. It is
modelled from the spec as a list of stored blocks.
-/

/-- `ExecutionNodeBlock` (`execution_chain/node/blocks.rs`): the fields
are those constructed in the tests of the sources; `timestamp` is modelled in
unix seconds. -/
structure ExecutionNodeBlock where
  number : Nat
  hash : String
  parentHash : String
  timestamp : Int
  baseFeePerGas : Nat
  gasUsed : Nat
  difficulty : Nat
  totalDifficulty : Nat
  deriving DecidableEq, Repr

/-- Modelled from the spec: a row of the blocks table kept by the block
store (`block_store.rs` is absent from the sources). -/
structure StoredBlock where
  number : Nat
  hash : String
  parentHash : String
  timestamp : Int
  baseFeePerGas : Nat
  gasUsed : Nat
  deriving DecidableEq, Repr

/-- Modelled from the spec: burn contribution of a block,
`base_fee_per_gas * gas_used` in wei. -/
def StoredBlock.burn (b : StoredBlock) : Int :=
  (b.baseFeePerGas * b.gasUsed : Nat)

/-- Modelled from the spec: the block store is the list of stored
blocks. -/
abbrev BlockStore := List StoredBlock

/-- Modelled from the spec: sum of the burn of every stored block whose
number lies in `[lo, hi]` (the range query of the burn-sum store runs over
the same blocks table). -/
def rangeBurnSum (store : BlockStore) (lo hi : Nat) : Int :=
  match store with
  | [] => 0
  | b :: rest =>
    (if lo ≤ b.number ∧ b.number ≤ hi then b.burn else 0) + rangeBurnSum rest lo hi

/-- Modelled from the spec: `BlockStore::first_number_after_or_at` —
the smallest stored block number whose timestamp is `>=` the given
instant, if any. -/
def firstNumberAfterOrAt (store : BlockStore) (t : Int) : Option Nat :=
  match store with
  | [] => none
  | b :: rest =>
    let acc := firstNumberAfterOrAt rest t
    if t ≤ b.timestamp then
      match acc with
      | none => some b.number
      | some m => some (min b.number m)
    else acc

/-- Modelled from the spec: `BlockStore::get_last_block_number` — the
highest stored block number, `none` when the store is empty. -/
def getLastBlockNumber (store : BlockStore) : Option Nat :=
  match store with
  | [] => none
  | b :: rest =>
    match getLastBlockNumber rest with
    | none => some b.number
    | some m => some (max b.number m)

/-- Modelled from the spec: `BlockStore::delete_blocks(gte)` — remove
every block with `number >= gte`. -/
def deleteBlocks (store : BlockStore) (gte : Nat) : BlockStore :=
  store.filter (fun b => b.number < gte)

/-- Modelled from the spec: `BlockStore::get_is_parent_hash_known` — a
stored block has the given hash. -/
def getIsParentHashKnown (store : BlockStore) (hash : String) : Bool :=
  store.any (fun b => b.hash == hash)

/-- Modelled from the spec: `BlockStore::get_is_number_known` — some
stored block occupies the given number. -/
def getIsNumberKnown (store : BlockStore) (number : Nat) : Bool :=
  store.any (fun b => b.number == number)

/-! ## Burn sums (`burn_sums/mod.rs`) -/

/-- `BlockRange` (`execution_chain` block range, used by the burn-sums
module as `range.start`/`range.end`). -/
structure BlockRange where
  start : Nat
  end_ : Nat
  deriving DecidableEq, Repr

/-- `BlockRange::new` panics when the lower bound exceeds the upper
bound; the panic is modelled as `none`. -/
def blockRangeNew (gte lte : Nat) : Option BlockRange :=
  if gte > lte then none else some ⟨gte, lte⟩

/-- Modelled from the spec: `BurnSumStore::burn_sum_from_block_range`
(`burn_sums/store.rs` is absent from the sources), the exact burn sum
over the blocks of the store whose number falls in the range. Only the
wei component is modelled; the usd component is a floating-point
accumulator. -/
def burnSumFromBlockRange (store : BlockStore) (range : BlockRange) : Int :=
  rangeBurnSum store range.start range.end_

/-- `struct BurnSumRecord` (`burn_sums/mod.rs` lines 80-89), wei sum
only. -/
structure BurnSumRecord where
  lastIncludedBlockHash : String
  firstIncludedBlockNumber : Nat
  lastIncludedBlockNumber : Nat
  sumWei : Int
  timeFrame : TimeFrame
  timestamp : Int
  deriving DecidableEq, Repr

/-- `expired_burn_from` (`burn_sums/mod.rs` lines 95-146). Outer `none`
models a panic (`expect` on a missing first-included number, or the
`Ordering::Less` invariant panic); the inner option is the Rust
`Option` result of the function `(first_included_block_number, expired_wei)`. -/
def expiredBurnFrom (blockStore : BlockStore) (lastBurnSum : BurnSumRecord)
    (block : ExecutionNodeBlock) (limitedTimeFrame : LimitedTimeFrame) :
    Option (Option (Nat × Int)) :=
  let ageLimit := block.timestamp - limitedTimeFrame.duration
  match firstNumberAfterOrAt blockStore ageLimit with
  | none => none
  | some firstIncludedBlockNumber =>
    if firstIncludedBlockNumber < lastBurnSum.firstIncludedBlockNumber then
      none
    else if firstIncludedBlockNumber = lastBurnSum.firstIncludedBlockNumber then
      some none
    else
      match blockRangeNew lastBurnSum.firstIncludedBlockNumber (firstIncludedBlockNumber - 1) with
      | none => none
      | some expiredBlockRange =>
        some (some (firstIncludedBlockNumber, burnSumFromBlockRange blockStore expiredBlockRange))

/-- `calc_new_burn_sum_record_from_scratch` (`burn_sums/mod.rs` lines
148-165) over a given covering range. The range computation
`BlockRange::from_last_plus_time_frame` is absent from the sources and
is Modelled from the spec by passing the covering range explicitly:
"determine the full covering range ... and sum burn over every block in
that range". -/
def calcNewBurnSumRecordFromScratch (burnSumStore : BlockStore)
    (block : ExecutionNodeBlock) (timeFrame : TimeFrame) (range : BlockRange) :
    BurnSumRecord :=
  { firstIncludedBlockNumber := range.start
    lastIncludedBlockHash := block.hash
    lastIncludedBlockNumber := range.end_
    sumWei := burnSumFromBlockRange burnSumStore range
    timeFrame := timeFrame
    timestamp := block.timestamp }

/-- `calc_new_burn_sum_record_from_last` (`burn_sums/mod.rs` lines
167-222); `none` models a panic in `BlockRange::new` or in
`expired_burn_from`. -/
def calcNewBurnSumRecordFromLast (blockStore : BlockStore)
    (lastBurnSum : BurnSumRecord) (block : ExecutionNodeBlock)
    (timeFrame : TimeFrame) : Option BurnSumRecord :=
  match blockRangeNew (lastBurnSum.lastIncludedBlockNumber + 1) block.number with
  | none => none
  | some newBurnRange =>
    let newBurnWei := burnSumFromBlockRange blockStore newBurnRange
    let expiredStep : Option (Option (Nat × Int)) :=
      match timeFrame with
      | .Limited limitedTimeFrame =>
        expiredBurnFrom blockStore lastBurnSum block limitedTimeFrame
      | .Growing _ => some none
    match expiredStep with
    | none => none
    | some expiredBurnSum =>
      let sumWei :=
        match expiredBurnSum with
        | some (_, expiredBurnSumWei) => newBurnWei - expiredBurnSumWei + lastBurnSum.sumWei
        | none => newBurnWei + lastBurnSum.sumWei
      let firstIncludedBlockNumber :=
        match expiredBurnSum with
        | some (n, _) => n
        | none => lastBurnSum.firstIncludedBlockNumber
      some
        { firstIncludedBlockNumber := firstIncludedBlockNumber
          lastIncludedBlockHash := block.hash
          lastIncludedBlockNumber := newBurnRange.end_
          sumWei := sumWei
          timeFrame := timeFrame
          timestamp := block.timestamp }

/-! ## Synchronization engine (`execution_chain/sync.rs`) -/

/-- `Head` (`execution_chain/node/heads.rs`, absent from the sources):
the head notification fields used by `sync.rs` — number, hash,
parent_hash. -/
structure Head where
  number : Nat
  hash : String
  parentHash : String
  deriving DecidableEq, Repr

/-- `enum HeadToSync` (`sync.rs` lines 258-262). -/
inductive HeadToSync where
  | Fetched (head : Head)
  | Refetch (blockNumber : Nat)
  deriving DecidableEq, Repr

/-- The heads queue; the list head is the queue front. -/
abbrev HeadsQueue := List HeadToSync

/-- `enum NextStep` (`sync.rs` lines 64-68). -/
inductive NextStep where
  | HandleGap
  | HandleHeadFork
  | AddToExisting
  deriving DecidableEq, Repr

/-- `get_next_step` (`sync.rs` lines 70-88), translated directly: gap
when the parent hash is unknown, else head-fork when the number is
occupied, else extension. -/
def getNextStep (store : BlockStore) (head : Head) : NextStep :=
  if !getIsParentHashKnown store head.parentHash then
    NextStep.HandleGap
  else if getIsNumberKnown store head.number then
    NextStep.HandleHeadFork
  else
    NextStep.AddToExisting

/-- `rollback_numbers` (`sync.rs` lines 29-32): deletes the blocks with
number `>=` the bound from the block store — and nothing else. -/
def rollbackNumbers (store : BlockStore) (greaterThanOrEqual : Nat) : BlockStore :=
  deleteBlocks store greaterThanOrEqual

/-- The `NextStep::HandleGap` arm of `sync_head` (`sync.rs` lines
109-129): `none` models the `expect("at least one block to be synced
before rolling back")` panic on an empty store; otherwise the store is
rolled back from `min(last, head.number)` and the numbers
`min(last, head.number) ..= head.number` are pushed onto the queue
front in descending iteration order. -/
def handleGap (store : BlockStore) (queue : HeadsQueue) (head : Head) :
    Option (BlockStore × HeadsQueue) :=
  match getLastBlockNumber store with
  | none => none
  | some lastBlockNumber =>
    let lowestNumber := min lastBlockNumber head.number
    let rolledBack := rollbackNumbers store lowestNumber
    let queueAfter :=
      ((List.range' lowestNumber (head.number + 1 - lowestNumber)).reverse).foldl
        (fun q number => HeadToSync.Refetch number :: q) queue
    some (rolledBack, queueAfter)

/-- The `NextStep::HandleHeadFork` arm of `sync_head` (`sync.rs` lines
130-143): roll back from the number of the head and re-push the same
`Fetched` item to the queue front. -/
def handleHeadFork (store : BlockStore) (queue : HeadsQueue) (head : Head) :
    BlockStore × HeadsQueue :=
  (rollbackNumbers store head.number, HeadToSync.Fetched head :: queue)

/-- The classification rule as the spec words it: fork-at-height only
when the number is occupied *by a different block* (compared by hash);
written to be diffed against `getNextStep`, which is translated from
the code. -/
def specNextStep (store : BlockStore) (head : Head) : NextStep :=
  if !getIsParentHashKnown store head.parentHash then
    NextStep.HandleGap
  else if store.any (fun b => b.number == head.number && b.hash != head.hash) then
    NextStep.HandleHeadFork
  else
    NextStep.AddToExisting

/-! ## Rollback integration with the burn-sum store -/

/-- `BurnSumStore::delete_new_sums_tx` — Modelled from the spec
(`burn_sums/store.rs` is absent from the sources): delete every burn
sum record whose `last_included_block_number >= ` the bound. -/
def deleteNewSumsTx (sums : List BurnSumRecord) (blockNumberGte : Nat) :
    List BurnSumRecord :=
  sums.filter (fun r => r.lastIncludedBlockNumber < blockNumberGte)

/-- `burn_sums::on_rollback` (`burn_sums/mod.rs` lines 91-93):
delegates to `delete_new_sums_tx`. -/
def onRollback (sums : List BurnSumRecord) (blockNumberGte : Nat) :
    List BurnSumRecord :=
  deleteNewSumsTx sums blockNumberGte

/-- Both persistent tables, blocks and burn sums, as one database
state. -/
structure ChainDb where
  blocks : BlockStore
  sums : List BurnSumRecord

/-- The rollback performed by the synchronization engine, lifted to the
whole database state: `rollback_numbers` (`sync.rs` lines 29-32) takes
only the block store and deletes only blocks; no call to
`burn_sums::on_rollback` exists anywhere in the sync path of the sources, so
the burn-sum table passes through unchanged. -/
def syncRollback (db : ChainDb) (greaterThanOrEqual : Nat) : ChainDb :=
  { db with blocks := rollbackNumbers db.blocks greaterThanOrEqual }

/-! ## Helper lemmas -/

/-- Splitting a range burn sum at an interior point. -/
theorem rangeBurnSum_split (store : BlockStore) (a b c : Nat)
    (h1 : a ≤ b + 1) (h2 : b ≤ c) :
    rangeBurnSum store a c = rangeBurnSum store a b + rangeBurnSum store (b + 1) c := by
  induction store with
  | nil => simp [rangeBurnSum]
  | cons blk rest ih =>
    simp only [rangeBurnSum, ih]
    split_ifs <;> omega

/-- Pushing the elements of a list to the queue front in reverse order
leaves them at the front in their original order. -/
theorem reverse_foldl_push_front {α β : Type} (f : α → β) (l : List α) :
    ∀ q : List β, l.reverse.foldl (fun acc n => f n :: acc) q = l.map f ++ q := by
  induction l with
  | nil => intro q; simp
  | cons x xs ih =>
    intro q
    simp only [List.reverse_cons, List.foldl_append, List.foldl_cons, List.foldl_nil, ih,
      List.map_cons, List.cons_append]

/-! ## Claim theorems -/

/-- C9: addition and subtraction on the wei (`i128`) and gwei (`u64`)
newtypes return the exact mathematical result whenever it is
representable in the underlying integer width, and otherwise fail
loudly with a distinct panic message per operation; they never wrap
silently. -/
theorem newtype_arithmetic_exact_or_loud (a b : Nat) (x y : Int)
    (ha : isU64 a) (hb : isU64 b) (hx : isI128 x) (hy : isI128 y) :
    (isU64 (a + b) → gweiAdd a b = .ok (a + b)) ∧
    (¬ isU64 (a + b) → gweiAdd a b = .error "caused overflow in gwei addition") ∧
    (b ≤ a → gweiSub a b = .ok (a - b) ∧ ((a - b : Nat) : Int) = (a : Int) - (b : Int)) ∧
    (¬ b ≤ a → gweiSub a b = .error "caused underflow in gwei subtraction") ∧
    (isI128 (x + y) → weiAdd x y = .ok (x + y)) ∧
    (¬ isI128 (x + y) → weiAdd x y = .error "caused overflow in wei addition") ∧
    (isI128 (x - y) → weiSub x y = .ok (x - y)) ∧
    (¬ isI128 (x - y) → weiSub x y = .error "caused underflow in wei subtraction") ∧
    "caused overflow in gwei addition" ≠ "caused underflow in gwei subtraction" ∧
    "caused overflow in wei addition" ≠ "caused underflow in wei subtraction" := by
  refine ⟨?_, ?_, ?_, ?_, ?_, ?_, ?_, ?_, by decide, by decide⟩ <;> intro h
  · simp [gweiAdd, h]
  · simp [gweiAdd, h]
  · refine ⟨by simp [gweiSub, h], ?_⟩
    omega
  · simp [gweiSub, h]
  · simp [weiAdd, h]
  · simp [weiAdd, h]
  · simp [weiSub, h]
  · simp [weiSub, h]

/-- Witness for C9 at concrete inputs. -/
theorem newtype_arithmetic_exact_or_loud_witness :
    gweiAdd 1 2 = .ok 3 ∧ weiSub 5 7 = .ok (-2) := by
  have h := newtype_arithmetic_exact_or_loud 1 2 5 7 (by decide) (by decide) (by decide)
    (by decide)
  exact ⟨h.1 (by decide), h.2.2.2.2.2.2.1 (by decide)⟩

/-- C7 (code evaluated at the failing input): `to_db_key` maps `Day30`
to `"d1"`, which collides with the key of `Day1` and parses back to
`Day1`, although `Display` and `FromStr` agree that the key of `Day30`
is `"d30"`. -/
theorem to_db_key_day30_collides :
    LimitedTimeFrame.toDbKey .Day30 = "d1" ∧
    LimitedTimeFrame.toDbKey .Day30 = LimitedTimeFrame.toDbKey .Day1 ∧
    LimitedTimeFrame.fromStr (LimitedTimeFrame.toDbKey .Day30) = .ok .Day1 ∧
    LimitedTimeFrame.display .Day30 = "d30" ∧
    LimitedTimeFrame.fromStr "d30" = .ok .Day30 :=
  ⟨rfl, rfl, rfl, rfl, rfl⟩

/-- C2 counterexample: a head whose number is occupied by the identical
already-stored block (same hash). The code classifies it as
fork-at-height, while the spec rule (occupied by a *different* block)
classifies it as extension. -/
theorem get_next_step_same_hash_counterexample :
    getNextStep [⟨0, "p", "q", 0, 1, 1⟩, ⟨1, "a", "p", 12, 1, 1⟩] ⟨1, "a", "p"⟩ =
      NextStep.HandleHeadFork ∧
    specNextStep [⟨0, "p", "q", 0, 1, 1⟩, ⟨1, "a", "p", 12, 1, 1⟩] ⟨1, "a", "p"⟩ =
      NextStep.AddToExisting := by
  constructor <;> decide

/-- C2 as amended: gap when the parent hash is unknown; fork-at-height
when the parent is known and the number is occupied by any stored block
(even one with the identical hash); extension otherwise. -/
theorem get_next_step_classification (store : BlockStore) (head : Head) :
    (¬ (∃ b ∈ store, b.hash = head.parentHash) → getNextStep store head = NextStep.HandleGap) ∧
    ((∃ b ∈ store, b.hash = head.parentHash) → (∃ b ∈ store, b.number = head.number) →
      getNextStep store head = NextStep.HandleHeadFork) ∧
    ((∃ b ∈ store, b.hash = head.parentHash) → ¬ (∃ b ∈ store, b.number = head.number) →
      getNextStep store head = NextStep.AddToExisting) := by
  have hp : getIsParentHashKnown store head.parentHash = true ↔
      ∃ b ∈ store, b.hash = head.parentHash := by
    simp [getIsParentHashKnown, List.any_eq_true, beq_iff_eq]
  have hn : getIsNumberKnown store head.number = true ↔
      ∃ b ∈ store, b.number = head.number := by
    simp [getIsNumberKnown, List.any_eq_true, beq_iff_eq]
  refine ⟨fun h => ?_, fun h1 h2 => ?_, fun h1 h2 => ?_⟩
  · have hfalse : getIsParentHashKnown store head.parentHash = false := by
      rcases Bool.eq_false_or_eq_true (getIsParentHashKnown store head.parentHash) with h1 | h0
      · exact absurd (hp.mp h1) h
      · exact h0
    simp [getNextStep, hfalse]
  · simp [getNextStep, hp.mpr h1, hn.mpr h2]
  · have hfalse : getIsNumberKnown store head.number = false := by
      rcases Bool.eq_false_or_eq_true (getIsNumberKnown store head.number) with h3 | h0
      · exact absurd (hn.mp h3) h2
      · exact h0
    simp [getNextStep, hp.mpr h1, hfalse]

/-- Witness for the amended C2 at concrete inputs. -/
theorem get_next_step_classification_witness :
    getNextStep [⟨0, "p", "q", 0, 1, 1⟩] ⟨1, "x", "p"⟩ = NextStep.AddToExisting :=
  (get_next_step_classification [⟨0, "p", "q", 0, 1, 1⟩] ⟨1, "x", "p"⟩).2.2
    (by decide) (by decide)

/-- C10: whenever the parent hash is known and the number is occupied —
including by a stored block with the identical hash — the code takes the
fork path: it classifies fork-at-height, deletes all blocks with number
`>= head.number` and re-pushes the same `Fetched` item to the queue
front; and the classification factors through the two store queries
(parent-hash known, number known), so the stored hash at that number is
never compared against the hash of the incoming head. -/
theorem occupied_number_always_forks (store : BlockStore) (queue : HeadsQueue) (head : Head)
    (hparent : getIsParentHashKnown store head.parentHash = true)
    (hnumber : getIsNumberKnown store head.number = true) :
    getNextStep store head = NextStep.HandleHeadFork ∧
    handleHeadFork store queue head =
      (deleteBlocks store head.number, HeadToSync.Fetched head :: queue) ∧
    (∀ (store2 : BlockStore) (head2 : Head),
      getIsParentHashKnown store2 head2.parentHash = getIsParentHashKnown store head.parentHash →
      getIsNumberKnown store2 head2.number = getIsNumberKnown store head.number →
      getNextStep store2 head2 = getNextStep store head) := by
  refine ⟨by simp [getNextStep, hparent, hnumber], rfl, fun store2 head2 h1 h2 => ?_⟩
  simp [getNextStep, hparent, hnumber, h1, h2]

/-- Witness for C10: the head duplicates a block already in the store
(same number and same hash); the code still forks. -/
theorem occupied_number_always_forks_witness :
    getNextStep [⟨0, "p", "q", 0, 1, 1⟩, ⟨1, "a", "p", 12, 1, 1⟩] ⟨1, "a", "p"⟩ =
      NextStep.HandleHeadFork :=
  (occupied_number_always_forks [⟨0, "p", "q", 0, 1, 1⟩, ⟨1, "a", "p", 12, 1, 1⟩] []
    ⟨1, "a", "p"⟩ (by decide) (by decide)).1

/-- C8 counterexample: processing a Gap-classified head against an
empty block store aborts (the `expect` on the last block number),
modelled as `none`. -/
theorem handle_gap_empty_store_counterexample :
    handleGap ([] : BlockStore) [] ⟨5, "a", "p"⟩ = none := rfl

/-- C8 as amended: the store-level query reports empty history as a
distinct no-data condition (`None`), but gap handling requires at least
one synced block and aborts on an empty block store instead of
proceeding. -/
theorem empty_store_no_data_and_gap_aborts :
    getLastBlockNumber ([] : BlockStore) = none ∧
    ∀ (queue : HeadsQueue) (head : Head), handleGap [] queue head = none :=
  ⟨rfl, fun _ _ => rfl⟩

/-- C6 (code evaluated at the failing input): the rollback performed by
the synchronization engine deletes the blocks with number `>= 3` but
leaves untouched a burn-sum record whose `last_included_block_number`
is `5 >= 3`, although `burn_sums::on_rollback` — which no sync code
ever calls — would have deleted it. -/
theorem sync_rollback_leaves_burn_sums :
    (syncRollback
        ⟨[⟨2, "h2", "h1", 20, 1, 1⟩, ⟨5, "h5", "h4", 50, 1, 1⟩],
         [⟨"h5", 0, 5, 100, .Limited .Day1, 50⟩]⟩ 3).blocks =
      [⟨2, "h2", "h1", 20, 1, 1⟩] ∧
    (syncRollback
        ⟨[⟨2, "h2", "h1", 20, 1, 1⟩, ⟨5, "h5", "h4", 50, 1, 1⟩],
         [⟨"h5", 0, 5, 100, .Limited .Day1, 50⟩]⟩ 3).sums =
      [⟨"h5", 0, 5, 100, .Limited .Day1, 50⟩] ∧
    (⟨"h5", 0, 5, 100, .Limited .Day1, 50⟩ : BurnSumRecord).lastIncludedBlockNumber ≥ 3 ∧
    onRollback [⟨"h5", 0, 5, 100, .Limited .Day1, 50⟩] 3 = [] := by
  refine ⟨by decide, rfl, by decide, by decide⟩

/-- C3: with at least one block synced, gap handling deletes exactly
the stored blocks with number `>= min(last, head.number)` and pushes
`Refetch` items that read, from queue front to back, as the ascending
sequence `min(last, head.number), ..., head.number`, in front of the
previous queue contents. -/
theorem handle_gap_rollback_and_queue (store : BlockStore) (queue : HeadsQueue) (head : Head)
    (last : Nat) (hlast : getLastBlockNumber store = some last) :
    handleGap store queue head =
      some (deleteBlocks store (min last head.number),
        (List.range' (min last head.number) (head.number + 1 - min last head.number)).map
          HeadToSync.Refetch ++ queue) ∧
    (∀ b, b ∈ deleteBlocks store (min last head.number) ↔
      b ∈ store ∧ b.number < min last head.number) := by
  constructor
  · simp only [handleGap, hlast, rollbackNumbers, reverse_foldl_push_front]
  · intro b
    simp [deleteBlocks, List.mem_filter]

/-- Witness for C3: store holding block 0, gap head at number 2; the
queue receives `Refetch 0, Refetch 1, Refetch 2` front to back. -/
theorem handle_gap_rollback_and_queue_witness :
    handleGap [⟨0, "h0", "p", 0, 1, 1⟩] [] ⟨2, "x", "y"⟩ =
      some ([], [.Refetch 0, .Refetch 1, .Refetch 2]) := by
  have h := (handle_gap_rollback_and_queue [⟨0, "h0", "p", 0, 1, 1⟩] [] ⟨2, "x", "y"⟩ 0
    (by decide)).1
  rw [h]
  decide

/-- C4: fork-at-height handling deletes every stored block with number
`>= head.number` and re-pushes the same `Fetched` item to the queue
front; provided the parent of the head is stored below the fork height
(the no-gap store invariant), the re-processed item classifies as
extension: the parent is still stored, the number is no longer
occupied. -/
theorem handle_head_fork_then_extension (store : BlockStore) (queue : HeadsQueue) (head : Head)
    (parent : StoredBlock) (hfork : getNextStep store head = NextStep.HandleHeadFork)
    (hmem : parent ∈ store) (hhash : parent.hash = head.parentHash)
    (hlt : parent.number < head.number) :
    handleHeadFork store queue head =
      (deleteBlocks store head.number, HeadToSync.Fetched head :: queue) ∧
    (∀ b ∈ deleteBlocks store head.number, b.number < head.number) ∧
    getNextStep (deleteBlocks store head.number) head = NextStep.AddToExisting := by
  refine ⟨rfl, fun b hb => ?_, ?_⟩
  · have := (List.mem_filter.mp hb).2
    simpa using this
  · have hparent : getIsParentHashKnown (deleteBlocks store head.number) head.parentHash = true := by
      simp only [getIsParentHashKnown, List.any_eq_true, beq_iff_eq]
      exact ⟨parent, List.mem_filter.mpr ⟨hmem, by simpa using hlt⟩, hhash⟩
    have hnum : getIsNumberKnown (deleteBlocks store head.number) head.number = false := by
      rcases Bool.eq_false_or_eq_true (getIsNumberKnown (deleteBlocks store head.number) head.number) with h1 | h0
      · exfalso
        simp only [getIsNumberKnown, List.any_eq_true, beq_iff_eq] at h1
        obtain ⟨b, hb, hbn⟩ := h1
        have := (List.mem_filter.mp hb).2
        simp only [decide_eq_true_eq] at this
        omega
      · exact h0
    simp [getNextStep, hparent, hnum]

/-- Unfolding of `calcNewBurnSumRecordFromLast` for growing time
frames, when the tip advanced past the last record. -/
theorem calcFromLast_growing_eq (store : BlockStore) (last : BurnSumRecord)
    (block : ExecutionNodeBlock) (g : GrowingTimeFrame)
    (hrange : last.lastIncludedBlockNumber < block.number) :
    calcNewBurnSumRecordFromLast store last block (.Growing g) =
      some ⟨block.hash, last.firstIncludedBlockNumber, block.number,
        rangeBurnSum store (last.lastIncludedBlockNumber + 1) block.number + last.sumWei,
        .Growing g, block.timestamp⟩ := by
  have hbr : blockRangeNew (last.lastIncludedBlockNumber + 1) block.number =
      some ⟨last.lastIncludedBlockNumber + 1, block.number⟩ := by
    unfold blockRangeNew
    rw [if_neg]
    omega
  simp only [calcNewBurnSumRecordFromLast, hbr, burnSumFromBlockRange]

/-- Unfolding of `calcNewBurnSumRecordFromLast` for limited time
frames: the three orderings of the new first-included number against
the one of the last record. -/
theorem calcFromLast_limited_eq (store : BlockStore) (last : BurnSumRecord)
    (block : ExecutionNodeBlock) (ltf : LimitedTimeFrame) (nf : Nat)
    (hnf : firstNumberAfterOrAt store (block.timestamp - ltf.duration) = some nf)
    (hrange : last.lastIncludedBlockNumber < block.number) :
    (last.firstIncludedBlockNumber < nf →
      calcNewBurnSumRecordFromLast store last block (.Limited ltf) =
        some ⟨block.hash, nf, block.number,
          rangeBurnSum store (last.lastIncludedBlockNumber + 1) block.number
            - rangeBurnSum store last.firstIncludedBlockNumber (nf - 1) + last.sumWei,
          .Limited ltf, block.timestamp⟩) ∧
    (nf = last.firstIncludedBlockNumber →
      calcNewBurnSumRecordFromLast store last block (.Limited ltf) =
        some ⟨block.hash, last.firstIncludedBlockNumber, block.number,
          rangeBurnSum store (last.lastIncludedBlockNumber + 1) block.number + last.sumWei,
          .Limited ltf, block.timestamp⟩) ∧
    (nf < last.firstIncludedBlockNumber →
      calcNewBurnSumRecordFromLast store last block (.Limited ltf) = none) := by
  have hbr : blockRangeNew (last.lastIncludedBlockNumber + 1) block.number =
      some ⟨last.lastIncludedBlockNumber + 1, block.number⟩ := by
    unfold blockRangeNew
    rw [if_neg]
    omega
  refine ⟨fun hgt => ?_, fun heq => ?_, fun hlt => ?_⟩
  · have hbr2 : blockRangeNew last.firstIncludedBlockNumber (nf - 1) =
        some ⟨last.firstIncludedBlockNumber, nf - 1⟩ := by
      unfold blockRangeNew
      rw [if_neg]
      omega
    simp only [calcNewBurnSumRecordFromLast, hbr, expiredBurnFrom, hnf, hbr2,
      burnSumFromBlockRange]
    rw [if_neg (by omega), if_neg (by omega)]
  · simp only [calcNewBurnSumRecordFromLast, hbr, expiredBurnFrom, hnf,
      burnSumFromBlockRange]
    rw [if_neg (by omega), if_pos heq]
  · simp only [calcNewBurnSumRecordFromLast, hbr, expiredBurnFrom, hnf]
    rw [if_pos hlt]

/-- `calcNewBurnSumRecordFromLast` for a limited time frame returns
`none` (panics) when no first-included block number exists. -/
theorem calcFromLast_limited_nf_missing (store : BlockStore) (last : BurnSumRecord)
    (block : ExecutionNodeBlock) (ltf : LimitedTimeFrame)
    (hfa : firstNumberAfterOrAt store (block.timestamp - ltf.duration) = none) :
    calcNewBurnSumRecordFromLast store last block (.Limited ltf) = none := by
  cases hb : blockRangeNew (last.lastIncludedBlockNumber + 1) block.number with
  | none => simp [calcNewBurnSumRecordFromLast, hb]
  | some range => simp [calcNewBurnSumRecordFromLast, hb, expiredBurnFrom, hfa]

/-- C5: for a limited time frame and a valid advance of the tip, the
incremental recomputation compares the new first-included number to the
one of the last record: strictly greater subtracts the expired burn of
`[last.first, new_first - 1]` and advances the first-included number;
equal adds the new burn only and keeps the first-included number;
strictly smaller aborts (invariant panic) instead of producing a
record. -/
theorem limited_expiration_three_way (store : BlockStore) (last : BurnSumRecord)
    (block : ExecutionNodeBlock) (ltf : LimitedTimeFrame) (nf : Nat)
    (hnf : firstNumberAfterOrAt store (block.timestamp - ltf.duration) = some nf)
    (hrange : last.lastIncludedBlockNumber < block.number) :
    (last.firstIncludedBlockNumber < nf →
      calcNewBurnSumRecordFromLast store last block (.Limited ltf) =
        some ⟨block.hash, nf, block.number,
          last.sumWei + rangeBurnSum store (last.lastIncludedBlockNumber + 1) block.number
            - rangeBurnSum store last.firstIncludedBlockNumber (nf - 1),
          .Limited ltf, block.timestamp⟩) ∧
    (nf = last.firstIncludedBlockNumber →
      calcNewBurnSumRecordFromLast store last block (.Limited ltf) =
        some ⟨block.hash, last.firstIncludedBlockNumber, block.number,
          last.sumWei + rangeBurnSum store (last.lastIncludedBlockNumber + 1) block.number,
          .Limited ltf, block.timestamp⟩) ∧
    (nf < last.firstIncludedBlockNumber →
      calcNewBurnSumRecordFromLast store last block (.Limited ltf) = none) := by
  obtain ⟨h1, h2, h3⟩ := calcFromLast_limited_eq store last block ltf nf hnf hrange
  refine ⟨fun hgt => ?_, fun heq => ?_, h3⟩
  · rw [h1 hgt]
    simp only [Option.some.injEq, BurnSumRecord.mk.injEq, true_and, and_true]
    ring
  · rw [h2 heq]
    simp only [Option.some.injEq, BurnSumRecord.mk.injEq, true_and, and_true]
    ring

/-- Witness for C5: a five-minute frame over four blocks in which one
block (burn 10) expires and one block (burn 40) is added to a last sum
of 60, giving 90 with the first-included number advanced from 0 to 1. -/
theorem limited_expiration_three_way_witness :
    calcNewBurnSumRecordFromLast
      [⟨0, "h0", "p", 0, 1, 10⟩, ⟨1, "h1", "h0", 100, 2, 10⟩,
       ⟨2, "h2", "h1", 200, 3, 10⟩, ⟨3, "h3", "h2", 320, 4, 10⟩]
      ⟨"h2", 0, 2, 60, .Limited .Minute5, 200⟩
      ⟨3, "h3", "h2", 320, 4, 10, 0, 0⟩ (.Limited .Minute5) =
      some ⟨"h3", 1, 3, 90, .Limited .Minute5, 320⟩ := by
  rw [(limited_expiration_three_way
    [⟨0, "h0", "p", 0, 1, 10⟩, ⟨1, "h1", "h0", 100, 2, 10⟩,
     ⟨2, "h2", "h1", 200, 3, 10⟩, ⟨3, "h3", "h2", 320, 4, 10⟩]
    ⟨"h2", 0, 2, 60, .Limited .Minute5, 200⟩
    ⟨3, "h3", "h2", 320, 4, 10, 0, 0⟩ .Minute5 1 (by decide) (by decide)).1 (by decide)]
  decide

/-- C1: for every time frame, whenever the incremental computation from
a valid last record (one whose sum equals the burn over its own range)
produces a record, that record equals the one computed from scratch
over the same final covering range of the block store. -/
theorem incremental_eq_from_scratch (store : BlockStore) (last : BurnSumRecord)
    (block : ExecutionNodeBlock) (tf : TimeFrame)
    (hvalid : last.sumWei =
      rangeBurnSum store last.firstIncludedBlockNumber last.lastIncludedBlockNumber)
    (hfl : last.firstIncludedBlockNumber ≤ last.lastIncludedBlockNumber + 1)
    (hbound : ∀ ltf : LimitedTimeFrame, tf = .Limited ltf →
      ∀ nf, firstNumberAfterOrAt store (block.timestamp - ltf.duration) = some nf →
        nf ≤ block.number + 1) :
    ∀ r, calcNewBurnSumRecordFromLast store last block tf = some r →
      r = calcNewBurnSumRecordFromScratch store block tf
        ⟨r.firstIncludedBlockNumber, r.lastIncludedBlockNumber⟩ := by
  intro r hr
  have hrange : last.lastIncludedBlockNumber < block.number := by
    by_contra hc
    have hbn : blockRangeNew (last.lastIncludedBlockNumber + 1) block.number = none := by
      unfold blockRangeNew
      rw [if_pos]
      omega
    simp only [calcNewBurnSumRecordFromLast, hbn] at hr
    exact Option.noConfusion hr
  have hllc : last.lastIncludedBlockNumber ≤ block.number := le_of_lt hrange
  cases tf with
  | Growing g =>
    rw [calcFromLast_growing_eq store last block g hrange] at hr
    have hre := (Option.some.inj hr)
    subst hre
    have hsplit := rangeBurnSum_split store last.firstIncludedBlockNumber
      last.lastIncludedBlockNumber block.number hfl hllc
    simp only [calcNewBurnSumRecordFromScratch, burnSumFromBlockRange,
      BurnSumRecord.mk.injEq, true_and, and_true]
    rw [hvalid]
    linarith [hsplit]
  | Limited ltf =>
    cases hfa : firstNumberAfterOrAt store (block.timestamp - ltf.duration) with
    | none =>
      rw [calcFromLast_limited_nf_missing store last block ltf hfa] at hr
      exact Option.noConfusion hr
    | some nf =>
      obtain ⟨h1, h2, h3⟩ := calcFromLast_limited_eq store last block ltf nf hfa hrange
      rcases Nat.lt_trichotomy nf last.firstIncludedBlockNumber with hlt | heq | hgt
      · rw [h3 hlt] at hr
        exact Option.noConfusion hr
      · rw [h2 heq] at hr
        have hre := (Option.some.inj hr)
        subst hre
        have hsplit := rangeBurnSum_split store last.firstIncludedBlockNumber
          last.lastIncludedBlockNumber block.number hfl hllc
        simp only [calcNewBurnSumRecordFromScratch, burnSumFromBlockRange,
          BurnSumRecord.mk.injEq, true_and, and_true]
        rw [hvalid]
        linarith [hsplit]
      · rw [h1 hgt] at hr
        have hre := (Option.some.inj hr)
        subst hre
        have hnfb : nf ≤ block.number + 1 := hbound ltf rfl nf hfa
        have hE1 := rangeBurnSum_split store last.firstIncludedBlockNumber (nf - 1)
          block.number (by omega) (by omega)
        have hnf1 : nf - 1 + 1 = nf := by omega
        rw [hnf1] at hE1
        have hE2 := rangeBurnSum_split store last.firstIncludedBlockNumber
          last.lastIncludedBlockNumber block.number hfl hllc
        simp only [calcNewBurnSumRecordFromScratch, burnSumFromBlockRange,
          BurnSumRecord.mk.injEq, true_and, and_true]
        rw [hvalid]
        linarith [hE1, hE2]

/-- Witness for C1: a growing frame over four blocks; the incremental
record from a valid last sum (60 over blocks 0..2) matches the
from-scratch record over the final covering range 0..3 (sum 100). -/
theorem incremental_eq_from_scratch_witness :
    calcNewBurnSumRecordFromLast
      [⟨0, "h0", "p", 0, 1, 10⟩, ⟨1, "h1", "h0", 100, 2, 10⟩,
       ⟨2, "h2", "h1", 200, 3, 10⟩, ⟨3, "h3", "h2", 320, 4, 10⟩]
      ⟨"h2", 0, 2, 60, .Growing .SinceBurn, 200⟩
      ⟨3, "h3", "h2", 320, 4, 10, 0, 0⟩ (.Growing .SinceBurn) =
      some ⟨"h3", 0, 3, 100, .Growing .SinceBurn, 320⟩ ∧
    (⟨"h3", 0, 3, 100, .Growing .SinceBurn, 320⟩ : BurnSumRecord) =
      calcNewBurnSumRecordFromScratch
        [⟨0, "h0", "p", 0, 1, 10⟩, ⟨1, "h1", "h0", 100, 2, 10⟩,
         ⟨2, "h2", "h1", 200, 3, 10⟩, ⟨3, "h3", "h2", 320, 4, 10⟩]
        ⟨3, "h3", "h2", 320, 4, 10, 0, 0⟩ (.Growing .SinceBurn) ⟨0, 3⟩ := by
  have hcalc : calcNewBurnSumRecordFromLast
      [⟨0, "h0", "p", 0, 1, 10⟩, ⟨1, "h1", "h0", 100, 2, 10⟩,
       ⟨2, "h2", "h1", 200, 3, 10⟩, ⟨3, "h3", "h2", 320, 4, 10⟩]
      ⟨"h2", 0, 2, 60, .Growing .SinceBurn, 200⟩
      ⟨3, "h3", "h2", 320, 4, 10, 0, 0⟩ (.Growing .SinceBurn) =
      some ⟨"h3", 0, 3, 100, .Growing .SinceBurn, 320⟩ := by decide
  refine ⟨hcalc, ?_⟩
  exact incremental_eq_from_scratch
    [⟨0, "h0", "p", 0, 1, 10⟩, ⟨1, "h1", "h0", 100, 2, 10⟩,
     ⟨2, "h2", "h1", 200, 3, 10⟩, ⟨3, "h3", "h2", 320, 4, 10⟩]
    ⟨"h2", 0, 2, 60, .Growing .SinceBurn, 200⟩
    ⟨3, "h3", "h2", 320, 4, 10, 0, 0⟩ (.Growing .SinceBurn) (by decide) (by decide)
    (fun ltf h => TimeFrame.noConfusion h)
    ⟨"h3", 0, 3, 100, .Growing .SinceBurn, 320⟩ hcalc

/-- Witness for C4: a fork head at number 1 whose parent (number 0) is
stored; after the rollback the head classifies as extension. -/
theorem handle_head_fork_then_extension_witness :
    handleHeadFork [⟨0, "p", "q", 0, 1, 1⟩, ⟨1, "b", "p", 12, 1, 1⟩] [] ⟨1, "a", "p"⟩ =
      (deleteBlocks [⟨0, "p", "q", 0, 1, 1⟩, ⟨1, "b", "p", 12, 1, 1⟩] 1,
        [HeadToSync.Fetched ⟨1, "a", "p"⟩]) ∧
    getNextStep (deleteBlocks [⟨0, "p", "q", 0, 1, 1⟩, ⟨1, "b", "p", 12, 1, 1⟩] 1)
      ⟨1, "a", "p"⟩ = NextStep.AddToExisting := by
  have h := handle_head_fork_then_extension
    [⟨0, "p", "q", 0, 1, 1⟩, ⟨1, "b", "p", 12, 1, 1⟩] [] ⟨1, "a", "p"⟩
    ⟨0, "p", "q", 0, 1, 1⟩ (by decide) (by decide) (by decide) (by decide)
  exact ⟨h.1, h.2.2⟩
